import Mathlib

/-!
Formal model of the in-memory caching layer in app/core/cache.py.

Python values stored in the cache are modelled by the type PyVal; the
distinguished constructor PyVal.none plays the role of the Python value
None, which the code uses both as the stored value and as the
cache-miss marker returned by InMemoryCache.get.

Timestamps (datetime.now values) are modelled as integers; each store
operation receives the current time as an explicit parameter.  The body
of every InMemoryCache method runs under the single store lock with no
suspension point between its clock reads, so one instant per operation
is used.

The store itself (the dict InMemoryCache._cache) is modelled as an
association list from string keys to entries; Python dicts never hold
duplicate keys, and the model maintains that invariant.
-/

/-- Model of the Python values that flow through the cache. -/
inductive PyVal where
  | none : PyVal
  | int : Int → PyVal
  | str : String → PyVal
  deriving DecidableEq, Repr

/-- A cache entry as built by InMemoryCache.set: the stored value plus
the creation and expiry timestamps. -/
structure Entry where
  value : PyVal
  created_at : Int
  expires_at : Int
  deriving DecidableEq, Repr

/-- The mapping held in InMemoryCache._cache. -/
abbrev Store : Type := List (String × Entry)

/-- Lookup of a key in the store, as dict membership plus indexing. -/
def storeFind : Store → String → Option Entry
  | [], _ => Option.none
  | (k1, e) :: rest, k => if k1 = k then some e else storeFind rest k

/-- Dict deletion (del / dict.pop with default): drops the entry with the
given key, leaves everything else in place, and is a no-op when the key
is absent. -/
def storeDelete (s : Store) (k : String) : Store :=
  s.filter (fun p => p.1 != k)

/-- Dict assignment: overwrite the entry at the key if present, append
it otherwise.  Keys stay duplicate-free. -/
def storeSet (s : Store) (k : String) (e : Entry) : Store :=
  storeDelete s k ++ [(k, e)]

/-- Keys of the store, as dict.keys(). -/
def storeKeys (s : Store) : List String :=
  s.map Prod.fst

/-- Wellformedness of the model store: a Python dict never holds two
entries with the same key. -/
abbrev Store.wf (s : Store) : Prop :=
  (storeKeys s).Nodup

/-- InMemoryCache.get: return the value when the entry exists and its
expiry is strictly in the future; delete the entry and return None when
it exists but is expired; return None when the key is absent.  The
first component is the Python return value (None doubles as the miss
marker), the second the store after the call. -/
def cacheGet (s : Store) (k : String) (now : Int) : PyVal × Store :=
  match storeFind s k with
  | some e => if now < e.expires_at then (e.value, s) else (PyVal.none, storeDelete s k)
  | Option.none => (PyVal.none, s)

/-- InMemoryCache.set: insert or overwrite the entry with
expires_at = now + ttl_seconds and created_at = now. -/
def cacheSet (s : Store) (k : String) (v : PyVal) (ttl_seconds : Int) (now : Int) : Store :=
  storeSet s k { value := v, created_at := now, expires_at := now + ttl_seconds }

/-- InMemoryCache.delete: remove the key if present; never an error. -/
def cacheDelete (s : Store) (k : String) : Store :=
  storeDelete s k

/-- InMemoryCache.clear: drop every entry. -/
def cacheClear (_s : Store) : Store :=
  ([] : Store)

/-- InMemoryCache.cleanup_expired: collect the keys whose entry has
expires_at less than or equal to now, then delete each of them.  The
Python function has no return statement, so its return value is the
Python None, modelled as the empty Option Nat in the first component. -/
def cleanupExpired (s : Store) (now : Int) : Option Nat × Store :=
  let expiredKeys := (storeKeys s).filter
    (fun k => match storeFind s k with
      | some e => e.expires_at ≤ now
      | Option.none => false)
  (Option.none, expiredKeys.foldl storeDelete s)

/-- InMemoryCache.get_stats: counts of all entries, of the entries with
expires_at less than or equal to now, and their difference.  Reads the
store without mutating it. -/
structure Stats where
  total_entries : Nat
  active_entries : Nat
  expired_entries : Nat
  deriving DecidableEq, Repr

/-- Builds the statistics record returned by InMemoryCache.get_stats. -/
def getStats (s : Store) (now : Int) : Stats :=
  let total := s.length
  let expired := (s.filter (fun p => p.2.expires_at ≤ now)).length
  { total_entries := total
    active_entries := total - expired
    expired_entries := expired }

/-! Basic lookup lemmas for the store operations. -/

theorem storeFind_filter_key (q : String → Bool) (s : Store) (k : String) :
    storeFind (s.filter (fun p => !q p.1)) k =
      if q k then Option.none else storeFind s k := by
  induction s with
  | nil => by_cases h : q k <;> simp [storeFind, h]
  | cons p rest ih =>
    obtain ⟨k1, e1⟩ := p
    by_cases h1 : q k1
    · by_cases h : q k
      · simp only [List.filter_cons, h1] at ih ⊢
        simpa [h] using ih
      · have hne : k1 ≠ k := fun hEq => by rw [hEq] at h1; exact h h1
        simp only [List.filter_cons, h1] at ih ⊢
        simpa [h, storeFind, hne] using ih
    · by_cases hk : k1 = k
      · subst hk
        simp [List.filter_cons, h1, storeFind]
      · simp only [List.filter_cons, h1] at ih ⊢
        simpa [storeFind, hk] using ih

theorem storeFind_delete (s : Store) (k k2 : String) :
    storeFind (storeDelete s k) k2 = if k2 = k then Option.none else storeFind s k2 := by
  have h := storeFind_filter_key (fun x => x == k) s k2
  simp only [beq_iff_eq] at h
  have hfun : (fun p : String × Entry => !(p.1 == k)) = fun p => p.1 != k := by
    funext p; simp [bne]
  rw [storeDelete, ← hfun]
  exact h

theorem storeFind_append (s1 s2 : Store) (k : String) :
    storeFind (s1 ++ s2) k = ((storeFind s1 k).or (storeFind s2 k)) := by
  induction s1 with
  | nil => simp [storeFind]
  | cons p rest ih =>
    obtain ⟨k1, e1⟩ := p
    by_cases h : k1 = k
    · simp [storeFind, h]
    · simpa [storeFind, h] using ih

theorem storeFind_set (s : Store) (k k2 : String) (e : Entry) :
    storeFind (storeSet s k e) k2 = if k2 = k then some e else storeFind s k2 := by
  rw [storeSet, storeFind_append, storeFind_delete]
  by_cases h : k2 = k
  · simp [storeFind, h]
  · cases hf : storeFind s k2 <;> simp [storeFind, h, Ne.symm h, hf]

theorem storeFind_foldl_delete (keys : List String) (s : Store) (k : String) :
    storeFind (keys.foldl storeDelete s) k =
      if k ∈ keys then Option.none else storeFind s k := by
  induction keys generalizing s with
  | nil => simp
  | cons k1 rest ih =>
    by_cases h : k = k1
    · subst h
      by_cases hm : k ∈ rest
      · simp [List.foldl_cons, ih, hm]
      · simp [List.foldl_cons, ih, hm, storeFind_delete]
    · simp [List.foldl_cons, ih, storeFind_delete, h]

/-! Python string helpers used by the invalidation code: startswith,
endswith, the substring test (the in operator) and slicing off the
last character. -/

/-- Python str.startswith. -/
def pyStartsWith (key pre : String) : Bool :=
  pre.data.isPrefixOf key.data

/-- Python str.endswith. -/
def pyEndsWith (s suf : String) : Bool :=
  suf.data.isSuffixOf s.data

/-- Python substring containment, the in operator on strings. -/
def pyIn (needle hay : String) : Bool :=
  decide (List.IsInfix needle.data hay.data)

/-- Python slicing off the final character, as in pattern[:-1]. -/
def pyDropLast (s : String) : String :=
  String.mk s.data.dropLast

/-! The key builder generate_cache_key serializes the call arguments
with json.dumps(..., sort_keys=True) and hashes the UTF-8 bytes with
MD5, returning the hex digest.  The MD5 algorithm is reproduced in
full over natural numbers reduced modulo 2 to the 32. -/

/-- Reduction modulo 2 to the 32, the width of the MD5 state words. -/
def mod32 (x : Nat) : Nat := x % 4294967296

/-- Rotate a 32 bit word left by s bits. -/
def rotl32 (x s : Nat) : Nat :=
  mod32 (x <<< s) ||| (x >>> (32 - s))

/-- The MD5 sine-derived constant table K. -/
def md5K : List Nat :=
  [0xd76aa478, 0xe8c7b756, 0x242070db, 0xc1bdceee,
   0xf57c0faf, 0x4787c62a, 0xa8304613, 0xfd469501,
   0x698098d8, 0x8b44f7af, 0xffff5bb1, 0x895cd7be,
   0x6b901122, 0xfd987193, 0xa679438e, 0x49b40821,
   0xf61e2562, 0xc040b340, 0x265e5a51, 0xe9b6c7aa,
   0xd62f105d, 0x02441453, 0xd8a1e681, 0xe7d3fbc8,
   0x21e1cde6, 0xc33707d6, 0xf4d50d87, 0x455a14ed,
   0xa9e3e905, 0xfcefa3f8, 0x676f02d9, 0x8d2a4c8a,
   0xfffa3942, 0x8771f681, 0x6d9d6122, 0xfde5380c,
   0xa4beea44, 0x4bdecfa9, 0xf6bb4b60, 0xbebfbc70,
   0x289b7ec6, 0xeaa127fa, 0xd4ef3085, 0x04881d05,
   0xd9d4d039, 0xe6db99e5, 0x1fa27cf8, 0xc4ac5665,
   0xf4292244, 0x432aff97, 0xab9423a7, 0xfc93a039,
   0x655b59c3, 0x8f0ccc92, 0xffeff47d, 0x85845dd1,
   0x6fa87e4f, 0xfe2ce6e0, 0xa3014314, 0x4e0811a1,
   0xf7537e82, 0xbd3af235, 0x2ad7d2bb, 0xeb86d391]

/-- The MD5 per-round left-rotation amounts. -/
def md5S : List Nat :=
  [7, 12, 17, 22, 7, 12, 17, 22, 7, 12, 17, 22, 7, 12, 17, 22,
   5, 9, 14, 20, 5, 9, 14, 20, 5, 9, 14, 20, 5, 9, 14, 20,
   4, 11, 16, 23, 4, 11, 16, 23, 4, 11, 16, 23, 4, 11, 16, 23,
   6, 10, 15, 21, 6, 10, 15, 21, 6, 10, 15, 21, 6, 10, 15, 21]

/-- The MD5 nonlinear function of each round group r = i / 16. -/
def md5F (r b c d : Nat) : Nat :=
  if r = 0 then (b &&& c) ||| ((0xffffffff ^^^ b) &&& d)
  else if r = 1 then (d &&& b) ||| ((0xffffffff ^^^ d) &&& c)
  else if r = 2 then b ^^^ c ^^^ d
  else c ^^^ (b ||| (0xffffffff ^^^ d))

/-- The MD5 message word index of round i in round group r. -/
def md5G (r i : Nat) : Nat :=
  if r = 0 then i % 16
  else if r = 1 then (5 * i + 1) % 16
  else if r = 2 then (3 * i + 5) % 16
  else (7 * i) % 16

/-- One of the 64 MD5 rounds applied to the state (a, b, c, d). -/
def md5Round (M : List Nat) (st : Nat × Nat × Nat × Nat) (i : Nat) :
    Nat × Nat × Nat × Nat :=
  let a := st.1
  let b := st.2.1
  let c := st.2.2.1
  let d := st.2.2.2
  let r := i / 16
  let f := mod32 (md5F r b c d + a + md5K.getD i 0 + M.getD (md5G r i) 0)
  (d, mod32 (b + rotl32 f (md5S.getD i 0)), b, c)

/-- Process one 16-word block, adding the round output into the state. -/
def md5ProcessBlock (st0 : Nat × Nat × Nat × Nat) (M : List Nat) :
    Nat × Nat × Nat × Nat :=
  let st := (List.range 64).foldl (md5Round M) st0
  (mod32 (st0.1 + st.1), mod32 (st0.2.1 + st.2.1),
   mod32 (st0.2.2.1 + st.2.2.1), mod32 (st0.2.2.2 + st.2.2.2))

/-- MD5 padding: a 0x80 byte, zeros up to 56 modulo 64, then the bit
length as eight little-endian bytes. -/
def md5Pad (msg : List Nat) : List Nat :=
  let L := msg.length
  let z := (120 - (L + 1) % 64) % 64
  let lenBytes := (List.range 8).map (fun i => ((8 * L) >>> (8 * i)) % 256)
  msg ++ [0x80] ++ List.replicate z 0 ++ lenBytes

/-- Group bytes into 32 bit little-endian words. -/
def bytesToWords : List Nat → List Nat
  | b0 :: b1 :: b2 :: b3 :: rest =>
      (b0 + 256 * b1 + 65536 * b2 + 16777216 * b3) :: bytesToWords rest
  | _ => []

/-- Split a padded message into 16-word blocks. -/
def md5Blocks : List Nat → List (List Nat)
  | [] => []
  | b :: rest =>
      bytesToWords ((b :: rest).take 64) :: md5Blocks ((b :: rest).drop 64)
  termination_by l => l.length
  decreasing_by simp [List.length_drop]; omega

/-- Lowercase hex digit for a value below 16. -/
def hexDigit (n : Nat) : Char :=
  if n < 10 then Char.ofNat (48 + n) else Char.ofNat (87 + n)

/-- Two lowercase hex digits of a byte. -/
def byteHex (b : Nat) : String :=
  String.mk [hexDigit (b / 16 % 16), hexDigit (b % 16)]

/-- Hex rendering of a state word, little-endian byte order as in
hashlib hexdigest. -/
def wordHex (w : Nat) : String :=
  byteHex (w % 256) ++ byteHex ((w >>> 8) % 256) ++
    byteHex ((w >>> 16) % 256) ++ byteHex ((w >>> 24) % 256)

/-- MD5 hex digest of a byte sequence, as hashlib.md5(x).hexdigest(). -/
def md5Hex (msg : List Nat) : String :=
  let st := (md5Blocks (md5Pad msg)).foldl md5ProcessBlock
    (0x67452301, 0xefcdab89, 0x98badcfe, 0x10325476)
  wordHex st.1 ++ wordHex st.2.1 ++ wordHex st.2.2.1 ++ wordHex st.2.2.2

/-! Serialization of the argument record, following
json.dumps with sort_keys set and the default separators. -/

/-- UTF-8 encoding of one character, as bytes. -/
def utf8Bytes (c : Char) : List Nat :=
  let n := c.toNat
  if n < 0x80 then [n]
  else if n < 0x800 then
    [0xc0 ||| (n >>> 6), 0x80 ||| (n &&& 0x3f)]
  else if n < 0x10000 then
    [0xe0 ||| (n >>> 12), 0x80 ||| ((n >>> 6) &&& 0x3f), 0x80 ||| (n &&& 0x3f)]
  else
    [0xf0 ||| (n >>> 18), 0x80 ||| ((n >>> 12) &&& 0x3f),
     0x80 ||| ((n >>> 6) &&& 0x3f), 0x80 ||| (n &&& 0x3f)]

/-- UTF-8 bytes of a string, as str.encode(). -/
def strBytes (s : String) : List Nat :=
  (s.data.map utf8Bytes).flatten

/-- JSON escaping of one character as json.dumps performs it with
ensure_ascii: the common backslash escapes, and a backslash-u sequence
for other control or non-ASCII characters (the model covers code
points of the basic multilingual plane, which includes every character
the repository puts into cache keys). -/
def jsonEscapeChar (c : Char) : List Char :=
  if c = '\\' then ['\\', '\\']
  else if c = '"' then ['\\', '"']
  else if c = '\n' then ['\\', 'n']
  else if c = '\t' then ['\\', 't']
  else if c = '\r' then ['\\', 'r']
  else if c.toNat < 32 || c.toNat > 126 then
    ['\\', 'u', hexDigit (c.toNat / 4096 % 16), hexDigit (c.toNat / 256 % 16),
     hexDigit (c.toNat / 16 % 16), hexDigit (c.toNat % 16)]
  else [c]

/-- A JSON string literal with its quotes. -/
def jsonStr (s : String) : String :=
  "\"" ++ String.mk ((s.data.map jsonEscapeChar).flatten) ++ "\""

/-- JSON rendering of one Python value. -/
def jsonOfVal : PyVal → String
  | PyVal.none => "null"
  | PyVal.int i => toString i
  | PyVal.str s => jsonStr s

/-- Insertion into a list of named arguments sorted by name. -/
def insertByKey (p : String × PyVal) :
    List (String × PyVal) → List (String × PyVal)
  | [] => [p]
  | q :: rest => if p.1 ≤ q.1 then p :: q :: rest else q :: insertByKey p rest

/-- Sorting the named arguments by name, the canonical order imposed by
sort_keys in json.dumps. -/
def sortByKey : List (String × PyVal) → List (String × PyVal)
  | [] => []
  | p :: rest => insertByKey p (sortByKey rest)

/-- The serialized form of the record holding the positional and the
named arguments of a call, as json.dumps renders it with sorted keys
and the default item and key separators. -/
def serializeKeyData (args : List PyVal) (kwargs : List (String × PyVal)) : String :=
  "\x7b\"args\": [" ++ String.intercalate ", " (args.map jsonOfVal) ++
    "], \"kwargs\": \x7b" ++
    String.intercalate ", "
      ((sortByKey kwargs).map (fun p => jsonStr p.1 ++ ": " ++ jsonOfVal p.2)) ++
    "\x7d\x7d"

/-- The key builder generate_cache_key: MD5 hex digest of the
serialized argument record. -/
def generate_cache_key (args : List PyVal) (kwargs : List (String × PyVal)) : String :=
  md5Hex (strBytes (serializeKeyData args kwargs))

/-! The memoizing wrapper produced by the cached decorator, the
invalidation wrapper produced by the cache_invalidate decorator, and
the CacheManager helpers.  A wrapped operation is modelled as a
function from the call arguments to a result or a raised exception;
the Bool component below records whether the underlying operation was
invoked during the call. -/

/-- The cache key the cached wrapper computes: the optional key_prefix
joined to the function name with a dot, then a colon and the argument
fingerprint. -/
def cachedKey (keyPre : Option String) (funcName : String)
    (args : List PyVal) (kwargs : List (String × PyVal)) : String :=
  let fn := match keyPre with
    | some p => p ++ "." ++ funcName
    | Option.none => funcName
  fn ++ ":" ++ generate_cache_key args kwargs

/-- One invocation of the wrapper built by the cached decorator: look
the key up; any value other than None is a hit and is returned without
invoking the operation; otherwise invoke the operation, and on success
store its result with the configured TTL.  A raised exception
propagates and nothing is stored.  Components: the Python outcome, the
store after the call, and whether the underlying operation ran. -/
def cachedCall (keyPre : Option String) (funcName : String) (ttl_seconds : Int)
    (f : List PyVal → List (String × PyVal) → Except String PyVal)
    (args : List PyVal) (kwargs : List (String × PyVal))
    (now : Int) (s : Store) : Except String PyVal × Store × Bool :=
  let key := cachedKey keyPre funcName args kwargs
  let res := cacheGet s key now
  if res.1 ≠ PyVal.none then (Except.ok res.1, res.2, false)
  else
    match f args kwargs with
    | Except.error e => (Except.error e, res.2, true)
    | Except.ok r => (Except.ok r, cacheSet res.2 key r ttl_seconds now, true)

/-- The body of the pattern loop in the cache_invalidate wrapper: a
pattern ending in the wildcard marker deletes every key starting with
the pattern minus its final character, collected from the mapping
first and then deleted one by one; any other pattern is deleted as an
exact key. -/
def applyPattern (s : Store) (pat : String) : Store :=
  if pyEndsWith pat "*" then
    let pre := pyDropLast pat
    let keysToDelete := (storeKeys s).filter (fun k => pyStartsWith k pre)
    keysToDelete.foldl storeDelete s
  else cacheDelete s pat

/-- One invocation of the wrapper built by the cache_invalidate
decorator: invoke the operation first; only when it returns normally,
run the pattern loop over all configured patterns.  A raised exception
propagates with the store untouched. -/
def cacheInvalidateCall (key_patterns : List String)
    (f : List PyVal → List (String × PyVal) → Except String PyVal)
    (args : List PyVal) (kwargs : List (String × PyVal))
    (s : Store) : Except String PyVal × Store :=
  match f args kwargs with
  | Except.error e => (Except.error e, s)
  | Except.ok r => (Except.ok r, key_patterns.foldl applyPattern s)

/-- Python str applied to an optional integer; str(None) is the text
None. -/
def pyStr : Option Int → String
  | some i => toString i
  | Option.none => "None"

/-- Python truthiness of an optional integer: None and 0 are falsy. -/
def pyFalsy : Option Int → Bool
  | Option.none => true
  | some i => i == 0

/-- CacheManager.invalidate_user_cache: collect every key containing
the text user_id: followed by the decimal form of the id, then delete
each collected key. -/
def invalidateUserCache (user_id : Int) (s : Store) : Store :=
  let keysToDelete := (storeKeys s).filter
    (fun k => pyIn ("user_id:" ++ toString user_id) k)
  keysToDelete.foldl storeDelete s

/-- CacheManager.invalidate_resource_cache: collect every key that
contains resource_type as a substring and, unless resource_id is falsy
(absent or zero), also contains the decimal form of resource_id; then
delete each collected key. -/
def invalidateResourceCache (resource_type : String) (resource_id : Option Int)
    (s : Store) : Store :=
  let keysToDelete := (storeKeys s).filter
    (fun k => pyIn resource_type k &&
      (pyFalsy resource_id || pyIn (pyStr resource_id) k))
  keysToDelete.foldl storeDelete s

/-! A trace language over the store operations, used to state the
entry timestamp invariant. -/

/-- One store operation together with the clock value it observes. -/
inductive StoreOp where
  | get (k : String) (now : Int)
  | set (k : String) (v : PyVal) (ttl_seconds : Int) (now : Int)
  | delete (k : String)
  | clear
  | cleanup (now : Int)
  | stats (now : Int)

/-- Effect of one store operation on the mapping; stats reads without
mutating. -/
def applyOp (s : Store) : StoreOp → Store
  | StoreOp.get k now => (cacheGet s k now).2
  | StoreOp.set k v ttl now => cacheSet s k v ttl now
  | StoreOp.delete k => cacheDelete s k
  | StoreOp.clear => cacheClear s
  | StoreOp.cleanup now => (cleanupExpired s now).2
  | StoreOp.stats _ => s

/-- Sequential execution of a list of store operations. -/
def runOps (s : Store) (ops : List StoreOp) : Store :=
  ops.foldl applyOp s

/-- The side condition of the timestamp invariant claim: every set in
the trace carries a strictly positive TTL. -/
def posTTL : StoreOp → Bool
  | StoreOp.set _ _ ttl _ => decide (0 < ttl)
  | _ => true

/-- The entry timestamp invariant: every entry present in the store
expires strictly after its creation. -/
def entryInv (s : Store) : Prop :=
  ∀ p ∈ s, p.2.created_at < p.2.expires_at

/-! Lock usage and direct access to the internal mapping, transcribed
from the source for the mutual exclusion claim. -/

/-- The six operations of the store class. -/
inductive StoreMethod where
  | get
  | set
  | delete
  | clear
  | cleanup_expired
  | get_stats
  deriving DecidableEq, Repr

/-- Whether the body of each InMemoryCache method runs inside the
async lock context of the store: get, set, delete, clear and
cleanup_expired each open the lock; get_stats is a plain synchronous
method that reads self._cache without taking the lock. -/
def acquiresStoreLock : StoreMethod → Bool
  | StoreMethod.get => true
  | StoreMethod.set => true
  | StoreMethod.delete => true
  | StoreMethod.clear => true
  | StoreMethod.cleanup_expired => true
  | StoreMethod.get_stats => false

/-- The code paths outside the store class that work with the cache. -/
inductive CacheCaller where
  | cachedWrapper
  | cacheInvalidateWrapper
  | invalidate_user_cache
  | invalidate_resource_cache
  | get_cache_stats
  | cache_cleanup_task
  deriving DecidableEq, Repr

/-- Whether each caller reads the internal mapping cache._cache
directly instead of going through the store operations: the
invalidation wrapper and both CacheManager invalidation helpers
iterate cache._cache.keys() themselves; the cached wrapper, the stats
helper and the cleanup task call only documented operations. -/
def readsStoreInternals : CacheCaller → Bool
  | CacheCaller.cachedWrapper => false
  | CacheCaller.cacheInvalidateWrapper => true
  | CacheCaller.invalidate_user_cache => true
  | CacheCaller.invalidate_resource_cache => true
  | CacheCaller.get_cache_stats => false
  | CacheCaller.cache_cleanup_task => false

/-! Helper lemmas about lookups, key membership and the
collect-then-delete loops shared by the invalidation paths. -/

theorem storeFind_eq_none_iff (s : Store) (k : String) :
    storeFind s k = Option.none ↔ k ∉ storeKeys s := by
  induction s with
  | nil => simp [storeFind, storeKeys]
  | cons p rest ih =>
    obtain ⟨k1, e1⟩ := p
    by_cases h : k1 = k
    · subst h
      simp [storeFind, storeKeys]
    · simp [storeFind, storeKeys, h, Ne.symm h] at ih ⊢
      simpa [storeKeys] using ih

theorem storeDelete_of_not_mem (s : Store) (k : String) (h : k ∉ storeKeys s) :
    storeDelete s k = s := by
  rw [storeDelete, List.filter_eq_self]
  intro p hp
  have : p.1 ≠ k := by
    intro hEq
    exact h (hEq ▸ List.mem_map_of_mem Prod.fst hp)
  simpa [bne] using this

theorem storeFind_collect_delete (q : String → Bool) (s : Store) (k : String) :
    storeFind (((storeKeys s).filter q).foldl storeDelete s) k =
      if q k then Option.none else storeFind s k := by
  rw [storeFind_foldl_delete]
  by_cases hq : q k
  · by_cases hm : k ∈ storeKeys s
    · simp [List.mem_filter, hm, hq]
    · have hnone : storeFind s k = Option.none := (storeFind_eq_none_iff s k).mpr hm
      simp [List.mem_filter, hm, hq, hnone]
  · simp [List.mem_filter, hq]

theorem length_storeDelete (s : Store) (k : String) (e : Entry)
    (hwf : Store.wf s) (hfind : storeFind s k = some e) :
    (storeDelete s k).length + 1 = s.length := by
  induction s with
  | nil => simp [storeFind] at hfind
  | cons p rest ih =>
    obtain ⟨k1, e1⟩ := p
    rw [Store.wf, storeKeys, List.map_cons, List.nodup_cons] at hwf
    by_cases h : k1 = k
    · subst h
      have : storeDelete ((k1, e1) :: rest) k1 = rest := by
        have hrest : storeDelete rest k1 = rest :=
          storeDelete_of_not_mem rest k1 hwf.1
        simpa [storeDelete, List.filter_cons] using hrest
      simp [this]
    · rw [storeFind, if_neg h] at hfind
      have := ih hwf.2 hfind
      simp only [storeDelete, List.filter_cons] at this ⊢
      have hb : (k1 != k) = true := by simpa [bne] using h
      simp [hb] at this ⊢
      omega

/-! Lemmas about the canonical ordering of named arguments. -/

/-- Sortedness by argument name. -/
def SortedKeys (l : List (String × PyVal)) : Prop :=
  l.Pairwise (fun p q => p.1 ≤ q.1)

theorem perm_insertByKey (p : String × PyVal) (l : List (String × PyVal)) :
    List.Perm (insertByKey p l) (p :: l) := by
  induction l with
  | nil => simp [insertByKey]
  | cons q rest ih =>
    rw [insertByKey]
    by_cases h : p.1 ≤ q.1
    · simp [h]
    · rw [if_neg h]
      exact List.Perm.trans (ih.cons q) (List.Perm.swap p q rest)

theorem perm_sortByKey (l : List (String × PyVal)) : List.Perm (sortByKey l) l := by
  induction l with
  | nil => simp [sortByKey]
  | cons p rest ih =>
    rw [sortByKey]
    exact (perm_insertByKey p (sortByKey rest)).trans (ih.cons p)

theorem sortedKeys_insertByKey (p : String × PyVal) (l : List (String × PyVal))
    (h : SortedKeys l) : SortedKeys (insertByKey p l) := by
  induction l with
  | nil => simp [insertByKey, SortedKeys]
  | cons q rest ih =>
    rw [SortedKeys, List.pairwise_cons] at h
    rw [insertByKey]
    by_cases hle : p.1 ≤ q.1
    · rw [if_pos hle, SortedKeys, List.pairwise_cons]
      refine ⟨?_, List.Pairwise.cons h.1 h.2⟩
      intro x hx
      rcases List.mem_cons.mp hx with hx | hx
      · exact hx ▸ hle
      · exact le_trans hle (h.1 x hx)
    · rw [if_neg hle, SortedKeys, List.pairwise_cons]
      have hge : q.1 ≤ p.1 := le_of_not_le hle
      refine ⟨?_, ih h.2⟩
      intro x hx
      have : x ∈ p :: rest := (perm_insertByKey p rest).mem_iff.mp hx
      rcases List.mem_cons.mp this with hx2 | hx2
      · exact hx2 ▸ hge
      · exact h.1 x hx2

theorem sortedKeys_sortByKey (l : List (String × PyVal)) : SortedKeys (sortByKey l) := by
  induction l with
  | nil => simp [sortByKey, SortedKeys]
  | cons p rest ih => exact sortedKeys_insertByKey p (sortByKey rest) ih

theorem sorted_nodupkeys_perm_eq :
    ∀ (l1 l2 : List (String × PyVal)), (l1.map Prod.fst).Nodup →
      List.Perm l1 l2 → SortedKeys l1 → SortedKeys l2 → l1 = l2 := by
  intro l1
  induction l1 with
  | nil =>
    intro l2 _ hp _ _
    exact (List.Perm.nil_eq hp).symm ▸ rfl
  | cons p t1 ih =>
    intro l2 hnd hp h1 h2
    cases l2 with
    | nil => exact absurd hp.symm (by simp)
    | cons q t2 =>
      rw [SortedKeys, List.pairwise_cons] at h1 h2
      rw [List.map_cons, List.nodup_cons] at hnd
      have hpq : p = q := by
        by_contra hne
        have hpmem : p ∈ q :: t2 := hp.mem_iff.mp (List.mem_cons_self p t1)
        have hqmem : q ∈ p :: t1 := hp.symm.mem_iff.mp (List.mem_cons_self q t2)
        have hpt2 : p ∈ t2 := by
          rcases List.mem_cons.mp hpmem with h | h
          · exact absurd h hne
          · exact h
        have hqt1 : q ∈ t1 := by
          rcases List.mem_cons.mp hqmem with h | h
          · exact absurd h.symm hne
          · exact h
        have hle1 : p.1 ≤ q.1 := h1.1 q hqt1
        have hle2 : q.1 ≤ p.1 := h2.1 p hpt2
        have hkeys : p.1 = q.1 := le_antisymm hle1 hle2
        exact hnd.1 (hkeys ▸ List.mem_map_of_mem Prod.fst hqt1)
      subst hpq
      have ht : List.Perm t1 t2 := hp.cons_inv
      rw [ih t2 hnd.2 ht h1.2 h2.2]

theorem sortByKey_eq_of_perm (l1 l2 : List (String × PyVal))
    (hnd : (l1.map Prod.fst).Nodup) (hp : List.Perm l1 l2) :
    sortByKey l1 = sortByKey l2 := by
  have hnd2 : ((sortByKey l1).map Prod.fst).Nodup :=
    (((perm_sortByKey l1).map Prod.fst).nodup_iff).mpr hnd
  exact sorted_nodupkeys_perm_eq (sortByKey l1) (sortByKey l2) hnd2
    ((perm_sortByKey l1).trans (hp.trans (perm_sortByKey l2).symm))
    (sortedKeys_sortByKey l1) (sortedKeys_sortByKey l2)

/-! Claim C2: sweep exactness. -/

/-- C2: cleanup_expired removes exactly the entries whose expiry is at
or before the call time, leaves every other entry unchanged, and its
return value is the Python None rather than a count. -/
theorem claim_C2_sweep_exact (s : Store) (now : Int) :
    (cleanupExpired s now).1 = Option.none ∧
    ∀ k, storeFind (cleanupExpired s now).2 k =
      (match storeFind s k with
        | some e => if e.expires_at ≤ now then Option.none else some e
        | Option.none => Option.none) := by
  refine ⟨rfl, ?_⟩
  intro k
  show storeFind ((((storeKeys s).filter _).foldl storeDelete s)) k = _
  rw [storeFind_collect_delete]
  cases hf : storeFind s k with
  | none => simp [hf]
  | some e => by_cases he : e.expires_at ≤ now <;> simp [hf, he]

/-- C2 counterexample: at a store holding a single expired entry and
call time 5, one entry is removed but the returned value is the Python
None, not the removal count 1. -/
theorem claim_C2_counterexample :
    (cleanupExpired [("k1", Entry.mk (PyVal.int 1) 0 1)] 5).2 = ([] : Store) ∧
    (cleanupExpired [("k1", Entry.mk (PyVal.int 1) 0 1)] 5).1 ≠
      some (([("k1", Entry.mk (PyVal.int 1) 0 1)] : Store).length -
        (cleanupExpired [("k1", Entry.mk (PyVal.int 1) 0 1)] 5).2.length) := by
  decide

/-! Claim C4: get semantics with lazy expiry removal. -/

/-- C4: get returns the stored value when the entry is present and
unexpired, deletes the entry and returns None when it is present but
expired (after which stats counts one entry fewer), and returns None
for an absent key. -/
theorem claim_C4_get_semantics (s : Store) (k : String) (now : Int)
    (hwf : Store.wf s) :
    (∀ e, storeFind s k = some e → now < e.expires_at →
      cacheGet s k now = (e.value, s)) ∧
    (∀ e, storeFind s k = some e → e.expires_at ≤ now →
      (cacheGet s k now).1 = PyVal.none ∧
      storeFind (cacheGet s k now).2 k = Option.none ∧
      (∀ k2, k2 ≠ k → storeFind (cacheGet s k now).2 k2 = storeFind s k2) ∧
      (getStats (cacheGet s k now).2 now).total_entries + 1 =
        (getStats s now).total_entries) ∧
    (storeFind s k = Option.none → cacheGet s k now = (PyVal.none, s)) := by
  refine ⟨?_, ?_, ?_⟩
  · intro e he hlt
    simp [cacheGet, he, hlt]
  · intro e he hge
    have hnlt : ¬ now < e.expires_at := not_lt.mpr hge
    refine ⟨by simp [cacheGet, he, hnlt], ?_, ?_, ?_⟩
    · simp [cacheGet, he, hnlt, storeFind_delete]
    · intro k2 hk2
      simp [cacheGet, he, hnlt, storeFind_delete, hk2]
    · have hlen := length_storeDelete s k e hwf he
      simp [cacheGet, he, hnlt, getStats]
      omega
  · intro he
    simp [cacheGet, he]

/-- C4 witness: a store with one entry expiring at time 1, read at
time 2: the entry is gone from the result and stats counts drop to
zero. -/
theorem claim_C4_witness :
    Store.wf [("k1", Entry.mk (PyVal.int 42) 0 1)] ∧
    storeFind [("k1", Entry.mk (PyVal.int 42) 0 1)] "k1" =
      some (Entry.mk (PyVal.int 42) 0 1) ∧
    (Entry.mk (PyVal.int 42) 0 1).expires_at ≤ 2 ∧
    ((cacheGet [("k1", Entry.mk (PyVal.int 42) 0 1)] "k1" 2).1 = PyVal.none ∧
      storeFind (cacheGet [("k1", Entry.mk (PyVal.int 42) 0 1)] "k1" 2).2 "k1" =
        Option.none ∧
      (∀ k2, k2 ≠ "k1" →
        storeFind (cacheGet [("k1", Entry.mk (PyVal.int 42) 0 1)] "k1" 2).2 k2 =
          storeFind [("k1", Entry.mk (PyVal.int 42) 0 1)] k2) ∧
      (getStats (cacheGet [("k1", Entry.mk (PyVal.int 42) 0 1)] "k1" 2).2
          2).total_entries + 1 =
        (getStats [("k1", Entry.mk (PyVal.int 42) 0 1)] 2).total_entries) :=
  ⟨by decide, by decide, by decide,
    (claim_C4_get_semantics [("k1", Entry.mk (PyVal.int 42) 0 1)] "k1" 2
        (by decide)).2.1 (Entry.mk (PyVal.int 42) 0 1) (by decide) (by decide)⟩

/-! Claim C5: prefix-wildcard invalidation. -/

/-- C5: a pattern ending in the wildcard marker deletes exactly the
keys whose leading substring equals the pattern with its final star
removed, and leaves every other entry unchanged. -/
theorem claim_C5_wildcard_invalidation (pat : String) (s : Store) (k : String)
    (hstar : pyEndsWith pat "*" = true) :
    storeFind (applyPattern s pat) k =
      (if pyStartsWith k (pyDropLast pat) then Option.none else storeFind s k) := by
  rw [applyPattern, if_pos hstar]
  exact storeFind_collect_delete (fun k2 => pyStartsWith k2 (pyDropLast pat)) s k

/-- C5 witness: invalidating user:* on a store holding user:1 and
superuser:1 deletes the former and leaves the latter untouched. -/
theorem claim_C5_witness :
    pyEndsWith "user:*" "*" = true ∧
    storeFind (applyPattern
        [("user:1", Entry.mk (PyVal.int 1) 0 9), ("superuser:1", Entry.mk (PyVal.int 2) 0 9)]
        "user:*") "user:1" = Option.none ∧
    storeFind (applyPattern
        [("user:1", Entry.mk (PyVal.int 1) 0 9), ("superuser:1", Entry.mk (PyVal.int 2) 0 9)]
        "user:*") "superuser:1" = some (Entry.mk (PyVal.int 2) 0 9) :=
  ⟨by decide,
    (claim_C5_wildcard_invalidation "user:*"
        [("user:1", Entry.mk (PyVal.int 1) 0 9), ("superuser:1", Entry.mk (PyVal.int 2) 0 9)]
        "user:1" (by decide)).trans (by decide),
    (claim_C5_wildcard_invalidation "user:*"
        [("user:1", Entry.mk (PyVal.int 1) 0 9), ("superuser:1", Entry.mk (PyVal.int 2) 0 9)]
        "superuser:1" (by decide)).trans (by decide)⟩

/-! Claim C6: entity-substring invalidation. -/

/-- C6 (amended): with a supplied nonzero entity id,
invalidate_resource_cache deletes exactly the keys containing both the
entity type and the decimal form of the id as substrings; with no id,
or with the falsy id 0, it deletes exactly the keys containing the
entity type. -/
theorem claim_C6_resource_invalidation (rt : String) (rid : Option Int)
    (s : Store) (k : String) :
    storeFind (invalidateResourceCache rt rid s) k =
      (match rid with
        | Option.none => if pyIn rt k then Option.none else storeFind s k
        | some i =>
            if i = 0 then (if pyIn rt k then Option.none else storeFind s k)
            else (if pyIn rt k ∧ pyIn (toString i) k then Option.none
              else storeFind s k)) := by
  rw [invalidateResourceCache]
  rw [storeFind_collect_delete
    (fun k2 => pyIn rt k2 && (pyFalsy rid || pyIn (pyStr rid) k2)) s k]
  cases rid with
  | none =>
    by_cases h : pyIn rt k = true <;> simp [pyFalsy, h]
  | some i =>
    by_cases hi : i = 0
    · subst hi
      by_cases h : pyIn rt k = true <;> simp [pyFalsy, h]
    · have hfal : pyFalsy (some i) = false := by simp [pyFalsy, hi]
      by_cases h : pyIn rt k = true <;>
        by_cases h2 : pyIn (toString i) k = true <;>
          simp [pyStr, hfal, h, h2, hi]

/-- C6 counterexample: with the supplied entity id 0, the key
user:list contains the entity type user but not the digit 0, so the
claim as stated leaves it in place; the code deletes it because 0 is
falsy and disables the id filter. -/
theorem claim_C6_counterexample :
    invalidateResourceCache "user" (some 0)
        [("user:list", Entry.mk (PyVal.int 1) 0 9)] = ([] : Store) ∧
    pyIn "0" "user:list" = false ∧
    pyIn "user" "user:list" = true := by
  decide

/-! Claim C10: user-cache invalidation over-matching. -/

/-- C10: invalidate_user_cache deletes exactly the keys containing the
text user_id: followed by the decimal id; in particular the id 7 also
deletes any key containing user_id:71, an id of a different user. -/
theorem claim_C10_user_invalidation (u : Int) (s : Store) (k : String) :
    (storeFind (invalidateUserCache u s) k =
      (if pyIn ("user_id:" ++ toString u) k then Option.none
        else storeFind s k)) ∧
    (pyIn "user_id:71" k = true →
      storeFind (invalidateUserCache 7 s) k = Option.none) := by
  constructor
  · rw [invalidateUserCache]
    exact storeFind_collect_delete
      (fun k2 => pyIn ("user_id:" ++ toString u) k2) s k
  · intro h71
    have hinf : List.IsInfix "user_id:7".data "user_id:71".data := by decide
    have h71p : List.IsInfix "user_id:71".data k.data := by
      rw [pyIn] at h71
      exact of_decide_eq_true h71
    have h7 : pyIn ("user_id:" ++ toString (7 : Int)) k = true := by
      have hkey : ("user_id:" ++ toString (7 : Int)) = "user_id:7" := by decide
      rw [hkey, pyIn]
      exact decide_eq_true_eq.mpr (hinf.trans h71p)
    rw [invalidateUserCache]
    rw [storeFind_collect_delete
      (fun k2 => pyIn ("user_id:" ++ toString (7 : Int)) k2) s k]
    simp [h7]

/-- C10 witness: invalidating user 7 deletes a key that belongs to
user 71. -/
theorem claim_C10_witness :
    pyIn "user_id:71" "events:user_id:71:list" = true ∧
    storeFind (invalidateUserCache 7
        [("events:user_id:71:list", Entry.mk (PyVal.int 3) 0 9)])
      "events:user_id:71:list" = Option.none :=
  ⟨by decide,
    (claim_C10_user_invalidation 7
        [("events:user_id:71:list", Entry.mk (PyVal.int 3) 0 9)]
        "events:user_id:71:list").2 (by decide)⟩

/-! Claim C9: lock discipline of the store operations. -/

/-- C9 (amended): get, set, delete, clear and cleanup_expired all run
under the store lock, but get_stats reads the store without the lock,
and the invalidation wrapper and both CacheManager invalidation
helpers read the internal mapping directly rather than through the
store operations. -/
theorem claim_C9_lock_discipline :
    (∀ m : StoreMethod, m ≠ StoreMethod.get_stats → acquiresStoreLock m = true) ∧
    acquiresStoreLock StoreMethod.get_stats = false ∧
    (∀ c : CacheCaller, readsStoreInternals c = true ↔
      (c = CacheCaller.cacheInvalidateWrapper ∨
        c = CacheCaller.invalidate_user_cache ∨
        c = CacheCaller.invalidate_resource_cache)) := by
  refine ⟨?_, rfl, ?_⟩
  · intro m hm
    cases m <;> first | rfl | exact absurd rfl hm
  · intro c
    cases c <;> simp [readsStoreInternals]

/-- C9 counterexample: get_stats takes no lock and the invalidation
wrapper iterates the internal mapping directly. -/
theorem claim_C9_counterexample :
    acquiresStoreLock StoreMethod.get_stats = false ∧
    readsStoreInternals CacheCaller.cacheInvalidateWrapper = true :=
  ⟨rfl, rfl⟩

/-- C9 witness: the get operation is distinct from get_stats and runs
under the lock. -/
theorem claim_C9_witness :
    StoreMethod.get ≠ StoreMethod.get_stats ∧
    acquiresStoreLock StoreMethod.get = true :=
  ⟨by decide, claim_C9_lock_discipline.1 StoreMethod.get (by decide)⟩

/-! Claim C8: entry timestamp invariant. -/

theorem entryInv_storeDelete (s : Store) (k : String) (h : entryInv s) :
    entryInv (storeDelete s k) :=
  fun p hp => h p (List.mem_of_mem_filter hp)

theorem entryInv_foldl_delete (keys : List String) (s : Store) (h : entryInv s) :
    entryInv (keys.foldl storeDelete s) := by
  induction keys generalizing s with
  | nil => exact h
  | cons k rest ih => exact ih (storeDelete s k) (entryInv_storeDelete s k h)

theorem entryInv_applyOp (s : Store) (op : StoreOp) (hop : posTTL op = true)
    (h : entryInv s) : entryInv (applyOp s op) := by
  cases op with
  | get k now =>
    show entryInv (cacheGet s k now).2
    rw [cacheGet]
    cases hf : storeFind s k with
    | none => exact h
    | some e =>
      by_cases hlt : now < e.expires_at
      · simpa [hlt] using h
      · simpa [hlt] using entryInv_storeDelete s k h
  | set k v ttl now =>
    intro p hp
    rw [applyOp, cacheSet, storeSet] at hp
    rcases List.mem_append.mp hp with hp | hp
    · exact entryInv_storeDelete s k h p hp
    · have hpe : p = (k, Entry.mk v now (now + ttl)) := by simpa using hp
      subst hpe
      have httl : (0 : Int) < ttl := of_decide_eq_true hop
      simpa using lt_add_of_pos_right now httl
  | delete k => exact entryInv_storeDelete s k h
  | clear => intro p hp; exact absurd hp (List.not_mem_nil p)
  | cleanup now =>
    show entryInv (cleanupExpired s now).2
    exact entryInv_foldl_delete _ s h
  | stats now => exact h

/-- C8: along any trace of store operations whose sets all carry a
strictly positive TTL, every entry present in the store expires
strictly after its creation; each operation preserves the invariant. -/
theorem claim_C8_timestamp_invariant (ops : List StoreOp) (s : Store)
    (hops : ∀ op ∈ ops, posTTL op = true) (hs : entryInv s) :
    entryInv (runOps s ops) := by
  induction ops generalizing s with
  | nil => exact hs
  | cons op rest ih =>
    exact ih (applyOp s op)
      (fun o ho => hops o (List.mem_cons_of_mem op ho))
      (entryInv_applyOp s op (hops op (List.mem_cons_self op rest)) hs)

/-- C8 witness: a trace with a set of TTL 300, a later expired read
and a sweep, run from the empty store, keeps the invariant. -/
theorem claim_C8_witness :
    (∀ op ∈ [StoreOp.set "k1" (PyVal.int 42) 300 0, StoreOp.get "k1" 500,
        StoreOp.cleanup 600, StoreOp.stats 700], posTTL op = true) ∧
    entryInv ([] : Store) ∧
    entryInv (runOps [] [StoreOp.set "k1" (PyVal.int 42) 300 0, StoreOp.get "k1" 500,
        StoreOp.cleanup 600, StoreOp.stats 700]) :=
  ⟨by decide, fun p hp => absurd hp (List.not_mem_nil p),
    claim_C8_timestamp_invariant _ [] (by decide)
      (fun p hp => absurd hp (List.not_mem_nil p))⟩

/-! Claim C7: key builder determinism and argument order independence. -/

/-- C7: generate_cache_key is a function of the positional arguments
and of the named-argument mapping alone: two supplied orders of the
same named arguments produce the identical key string. -/
theorem claim_C7_key_determinism (args : List PyVal)
    (kw1 kw2 : List (String × PyVal))
    (hnd : (kw1.map Prod.fst).Nodup) (hp : List.Perm kw1 kw2) :
    generate_cache_key args kw1 = generate_cache_key args kw2 := by
  have hs : sortByKey kw1 = sortByKey kw2 := sortByKey_eq_of_perm kw1 kw2 hnd hp
  rw [generate_cache_key, generate_cache_key, serializeKeyData, serializeKeyData, hs]

/-- C7 witness: the named arguments b then a and a then b yield the
same key. -/
theorem claim_C7_witness :
    (([("b", PyVal.int 2), ("a", PyVal.str "x")] :
        List (String × PyVal)).map Prod.fst).Nodup ∧
    List.Perm [("b", PyVal.int 2), ("a", PyVal.str "x")]
      [("a", PyVal.str "x"), ("b", PyVal.int 2)] ∧
    generate_cache_key [PyVal.int 1] [("b", PyVal.int 2), ("a", PyVal.str "x")] =
      generate_cache_key [PyVal.int 1] [("a", PyVal.str "x"), ("b", PyVal.int 2)] :=
  ⟨by decide, List.Perm.swap ("a", PyVal.str "x") ("b", PyVal.int 2) [],
    claim_C7_key_determinism [PyVal.int 1] _ _ (by decide)
      (List.Perm.swap ("a", PyVal.str "x") ("b", PyVal.int 2) [])⟩

/-! Claim C1: memoization calls the operation exactly once inside the
TTL window. -/

/-- C1 (amended): for an operation whose result is not the Python
None, a first call on a store not holding the computed key invokes the
operation and returns its result, and a second call with the same
arguments strictly inside the TTL window returns the cached result
without invoking the operation again. -/
theorem claim_C1_memoize_once (keyPre : Option String) (funcName : String)
    (ttl : Int) (g : List PyVal → List (String × PyVal) → PyVal)
    (args : List PyVal) (kwargs : List (String × PyVal)) (t0 t1 : Int) (s : Store)
    (hfresh : storeFind s (cachedKey keyPre funcName args kwargs) = Option.none)
    (_h01 : t0 ≤ t1) (hwin : t1 < t0 + ttl) (hv : g args kwargs ≠ PyVal.none) :
    (cachedCall keyPre funcName ttl (fun a b => Except.ok (g a b)) args kwargs t0 s).2.2
        = true ∧
    (cachedCall keyPre funcName ttl (fun a b => Except.ok (g a b)) args kwargs t0 s).1
        = Except.ok (g args kwargs) ∧
    (cachedCall keyPre funcName ttl (fun a b => Except.ok (g a b)) args kwargs t1
        (cachedCall keyPre funcName ttl (fun a b => Except.ok (g a b)) args kwargs
          t0 s).2.1).2.2 = false ∧
    (cachedCall keyPre funcName ttl (fun a b => Except.ok (g a b)) args kwargs t1
        (cachedCall keyPre funcName ttl (fun a b => Except.ok (g a b)) args kwargs
          t0 s).2.1).1 = Except.ok (g args kwargs) := by
  have hc1 : cachedCall keyPre funcName ttl (fun a b => Except.ok (g a b))
      args kwargs t0 s =
      (Except.ok (g args kwargs),
        cacheSet s (cachedKey keyPre funcName args kwargs) (g args kwargs) ttl t0,
        true) := by
    rw [cachedCall]
    simp [cacheGet, hfresh]
  have hfind2 : storeFind
      (cacheSet s (cachedKey keyPre funcName args kwargs) (g args kwargs) ttl t0)
      (cachedKey keyPre funcName args kwargs) =
      some (Entry.mk (g args kwargs) t0 (t0 + ttl)) := by
    rw [cacheSet, storeFind_set]
    simp
  have hc2 : cachedCall keyPre funcName ttl (fun a b => Except.ok (g a b))
      args kwargs t1
      (cacheSet s (cachedKey keyPre funcName args kwargs) (g args kwargs) ttl t0) =
      (Except.ok (g args kwargs),
        cacheSet s (cachedKey keyPre funcName args kwargs) (g args kwargs) ttl t0,
        false) := by
    rw [cachedCall]
    simp [cacheGet, hfind2, hwin, hv]
  rw [hc1]
  exact ⟨rfl, rfl, by rw [hc2], by rw [hc2]⟩

/-- C1 counterexample: an operation that returns the Python None is
invoked again by the second call inside the TTL window, because the
wrapper cannot distinguish a cached None from a miss. -/
theorem claim_C1_counterexample :
    (cachedCall Option.none "app.f" 300 (fun _ _ => Except.ok PyVal.none) [] [] 1
      (cachedCall Option.none "app.f" 300 (fun _ _ => Except.ok PyVal.none) [] [] 0
        ([] : Store)).2.1).2.2 = true := by
  have h1 : cachedCall Option.none "app.f" 300
      (fun _ _ => Except.ok PyVal.none) [] [] 0 ([] : Store) =
      (Except.ok PyVal.none,
        cacheSet [] (cachedKey Option.none "app.f" [] []) PyVal.none 300 0, true) := by
    rw [cachedCall]
    simp [cacheGet, storeFind]
  have hfind : storeFind
      (cacheSet [] (cachedKey Option.none "app.f" [] []) PyVal.none 300 0)
      (cachedKey Option.none "app.f" [] []) =
      some (Entry.mk PyVal.none 0 (0 + 300)) := by
    rw [cacheSet, storeFind_set]
    simp
  rw [h1, cachedCall]
  simp [cacheGet, hfind]

/-- C1 witness: a constant integer operation, a first call at time 0
on the empty store and a second at time 100 with TTL 300. -/
theorem claim_C1_witness :
    storeFind [] (cachedKey Option.none "app.h" [] []) = Option.none ∧
    (0 : Int) ≤ 100 ∧ (100 : Int) < 0 + 300 ∧
    (fun _ _ => PyVal.int 7 : List PyVal → List (String × PyVal) → PyVal) [] [] ≠
      PyVal.none ∧
    ((cachedCall Option.none "app.h" 300 (fun a b => Except.ok
        ((fun _ _ => PyVal.int 7 : List PyVal → List (String × PyVal) → PyVal) a b))
        [] [] 0 []).2.2 = true ∧
      (cachedCall Option.none "app.h" 300 (fun a b => Except.ok
        ((fun _ _ => PyVal.int 7 : List PyVal → List (String × PyVal) → PyVal) a b))
        [] [] 0 []).1 = Except.ok (PyVal.int 7) ∧
      (cachedCall Option.none "app.h" 300 (fun a b => Except.ok
        ((fun _ _ => PyVal.int 7 : List PyVal → List (String × PyVal) → PyVal) a b))
        [] [] 100
        (cachedCall Option.none "app.h" 300 (fun a b => Except.ok
          ((fun _ _ => PyVal.int 7 : List PyVal → List (String × PyVal) → PyVal) a b))
          [] [] 0 []).2.1).2.2 = false ∧
      (cachedCall Option.none "app.h" 300 (fun a b => Except.ok
        ((fun _ _ => PyVal.int 7 : List PyVal → List (String × PyVal) → PyVal) a b))
        [] [] 100
        (cachedCall Option.none "app.h" 300 (fun a b => Except.ok
          ((fun _ _ => PyVal.int 7 : List PyVal → List (String × PyVal) → PyVal) a b))
          [] [] 0 []).2.1).1 = Except.ok (PyVal.int 7)) :=
  ⟨rfl, by decide, by decide, by decide,
    claim_C1_memoize_once Option.none "app.h" 300
      (fun _ _ => PyVal.int 7) [] [] 0 100 [] rfl (by decide) (by decide) (by decide)⟩

/-! Claim C3: failure atomicity of the two wrappers. -/

/-- C3 (amended): when the cache lookup misses and the wrapped
operation raises, the memoizing wrapper propagates the error and
stores nothing: the post-call store is exactly the post-lookup store,
which equals the pre-call store except that an expired entry at the
computed key has been lazily removed by the lookup itself; the
invalidation wrapper propagates the error with the store entirely
untouched. -/
theorem claim_C3_failure_atomicity (keyPre : Option String) (funcName : String)
    (ttl : Int) (f : List PyVal → List (String × PyVal) → Except String PyVal)
    (args : List PyVal) (kwargs : List (String × PyVal)) (now : Int) (s : Store)
    (err : String) (patterns : List String)
    (hf : f args kwargs = Except.error err)
    (hmiss : (cacheGet s (cachedKey keyPre funcName args kwargs) now).1 =
      PyVal.none) :
    cachedCall keyPre funcName ttl f args kwargs now s =
      (Except.error err,
        (cacheGet s (cachedKey keyPre funcName args kwargs) now).2, true) ∧
    (∀ k2, k2 ≠ cachedKey keyPre funcName args kwargs →
      storeFind (cacheGet s (cachedKey keyPre funcName args kwargs) now).2 k2 =
        storeFind s k2) ∧
    ((cacheGet s (cachedKey keyPre funcName args kwargs) now).2 = s ∨
      (∃ e, storeFind s (cachedKey keyPre funcName args kwargs) = some e ∧
        e.expires_at ≤ now ∧
        (cacheGet s (cachedKey keyPre funcName args kwargs) now).2 =
          storeDelete s (cachedKey keyPre funcName args kwargs))) ∧
    cacheInvalidateCall patterns f args kwargs s = (Except.error err, s) := by
  refine ⟨?_, ?_, ?_, ?_⟩
  · rw [cachedCall]
    simp only [hmiss, ne_eq, not_true_eq_false, if_false, hf]
  · intro k2 hk2
    rw [cacheGet]
    cases hfd : storeFind s (cachedKey keyPre funcName args kwargs) with
    | none => rfl
    | some e =>
      by_cases hlt : now < e.expires_at
      · simp [hlt]
      · simp [hlt, storeFind_delete, hk2]
  · rw [cacheGet]
    cases hfd : storeFind s (cachedKey keyPre funcName args kwargs) with
    | none => exact Or.inl rfl
    | some e =>
      by_cases hlt : now < e.expires_at
      · exact Or.inl (by simp [hlt])
      · exact Or.inr ⟨e, rfl, not_lt.mp hlt, by simp [hlt]⟩
  · rw [cacheInvalidateCall, hf]

/-- C3 counterexample: a failing operation with an expired entry at
its computed key leaves a changed store, because the lookup that
precedes the invocation removes the expired entry. -/
theorem claim_C3_counterexample :
    (cachedCall Option.none "app.g" 300 (fun _ _ => Except.error "boom") [] [] 2
      [(cachedKey Option.none "app.g" [] [], Entry.mk (PyVal.int 5) 0 1)]).1 =
        Except.error "boom" ∧
    (cachedCall Option.none "app.g" 300 (fun _ _ => Except.error "boom") [] [] 2
      [(cachedKey Option.none "app.g" [] [], Entry.mk (PyVal.int 5) 0 1)]).2.1 =
        ([] : Store) ∧
    ([(cachedKey Option.none "app.g" [] [], Entry.mk (PyVal.int 5) 0 1)] : Store) ≠
      ([] : Store) := by
  have hget : cacheGet
      [(cachedKey Option.none "app.g" [] [], Entry.mk (PyVal.int 5) 0 1)]
      (cachedKey Option.none "app.g" [] []) 2 = (PyVal.none, ([] : Store)) := by
    rw [cacheGet]
    simp [storeFind, storeDelete]
  rw [cachedCall]
  rw [hget]
  refine ⟨rfl, rfl, by simp⟩

/-- C3 witness: a failing operation on the empty store with one
wildcard pattern configured on the invalidation wrapper. -/
theorem claim_C3_witness :
    ((fun _ _ => Except.error "x" :
        List PyVal → List (String × PyVal) → Except String PyVal) [] [] =
      Except.error "x") ∧
    ((cacheGet [] (cachedKey Option.none "app.w" [] []) 0).1 = PyVal.none) ∧
    (cachedCall Option.none "app.w" 300 (fun _ _ => Except.error "x") [] [] 0 [] =
      (Except.error "x",
        (cacheGet [] (cachedKey Option.none "app.w" [] []) 0).2, true) ∧
      (∀ k2, k2 ≠ cachedKey Option.none "app.w" [] [] →
        storeFind (cacheGet [] (cachedKey Option.none "app.w" [] []) 0).2 k2 =
          storeFind [] k2) ∧
      ((cacheGet [] (cachedKey Option.none "app.w" [] []) 0).2 = ([] : Store) ∨
        (∃ e, storeFind [] (cachedKey Option.none "app.w" [] []) = some e ∧
          e.expires_at ≤ 0 ∧
          (cacheGet [] (cachedKey Option.none "app.w" [] []) 0).2 =
            storeDelete [] (cachedKey Option.none "app.w" [] []))) ∧
      cacheInvalidateCall ["user:*"] (fun _ _ => Except.error "x") [] [] [] =
        (Except.error "x", ([] : Store))) :=
  ⟨rfl, rfl,
    claim_C3_failure_atomicity Option.none "app.w" 300
      (fun _ _ => Except.error "x") [] [] 0 [] "x" ["user:*"] rfl rfl⟩
